import Mathlib

/-!
Verification of the register_vm repository: a shallow embedding of the
virtual machine (`src/vm.rs`), the opcode table (`src/instruction.rs`) and
the assembler with its text parser (`src/assembler/mod.rs`,
`src/assembler/asm_parsers.rs`), together with proofs settling the frozen
claims about them.

Modelling conventions:
* Rust `i32` values are Lean `Int`s; every arithmetic step that can
  overflow in Rust checks `fitsI32` and a failed check is a panic
  (checked arithmetic, as under `cargo test`).  `as u32` / `as usize`
  casts wrap, as in Rust, via `toU32` / `toUsize`.
* A Rust panic (failed `assert!`, index out of bounds, `unwrap()` of a
  parse error, division by zero, arithmetic overflow) is `none` /
  `.panic` / `.panicked` in the corresponding `Option` / result type.
* Byte buffers (`Vec<u8>`) are `List Nat` whose entries are bytes;
  strings handed to the assembler are `List Nat` of character codes
  (all inputs appearing in the claims are ASCII).
-/

set_option maxRecDepth 20000

/-- The opcode enum of `src/instruction.rs`.  Note: `src/vm.rs` also names
an `Opcode::JNEQ` match arm, but no such variant exists in
`src/instruction.rs` (as given, the crate does not compile); no byte
decodes to it, so that arm is dead and has no counterpart here. -/
inductive Opcode where
  | HLT | LOAD | ADD | SUB | MUL | DIV | JMP | JMPF | JMPB
  | EQ | NEQ | GT | LT | GTE | LTE | JEQD | JEQ | IGL | NOP
  | ALOC | INC | DEC
deriving DecidableEq

/-- `impl From<u8> for Opcode` in `src/instruction.rs`. -/
def Opcode.fromByte (v : Nat) : Opcode :=
  match v with
  | 0 => .HLT | 1 => .LOAD | 2 => .ADD | 3 => .SUB | 4 => .MUL | 5 => .DIV
  | 6 => .JMP | 7 => .JMPF | 8 => .JMPB | 9 => .EQ | 10 => .NEQ | 11 => .GT
  | 12 => .LT | 13 => .GTE | 14 => .LTE | 15 => .JEQD | 16 => .JEQ
  | 17 => .NOP | 18 => .ALOC | 19 => .INC | 20 => .DEC | _ => .IGL

/-- `impl Into<u8> for &Opcode` in `src/instruction.rs` (the wildcard arm
maps the remaining variant, `IGL`, to 255). -/
def Opcode.toByte : Opcode → Nat
  | .HLT => 0 | .LOAD => 1 | .ADD => 2 | .SUB => 3 | .MUL => 4 | .DIV => 5
  | .JMP => 6 | .JMPF => 7 | .JMPB => 8 | .EQ => 9 | .NEQ => 10 | .GT => 11
  | .LT => 12 | .GTE => 13 | .LTE => 14 | .JEQD => 15 | .JEQ => 16
  | .NOP => 17 | .ALOC => 18 | .INC => 19 | .DEC => 20 | .IGL => 255

/-- The VM state of `src/vm.rs`: 32 signed 32-bit registers, a byte
program counter, the program byte buffer, the unsigned remainder
register, the comparison flag and the growable heap byte buffer. -/
structure VM where
  registers : List Int
  pc : Nat
  program : List Nat
  remainder : Nat
  equal_flag : Bool
  heap : List Nat
deriving DecidableEq

/-- `VM::new`. -/
def VM.new : VM :=
  { registers := List.replicate 32 0, pc := 0, program := [],
    remainder := 0, equal_flag := false, heap := [] }

/-- `VM::add_bytes` (appends to the program buffer). -/
def VM.add_bytes (s : VM) (bytes : List Nat) : VM :=
  { s with program := s.program ++ bytes }

/-- Whether an integer is representable as a Rust `i32`. -/
def fitsI32 (z : Int) : Bool :=
  decide (-2147483648 ≤ z) && decide (z < 2147483648)

/-- The value of an `i32` cast `as u32` (two's-complement wrap). -/
def toU32 (z : Int) : Nat := (z % 4294967296).toNat

/-- The value of an `i32` cast `as usize` (sign-extend, then wrap to 64 bits). -/
def toUsize (z : Int) : Nat := (z % 18446744073709551616).toNat

/-- The value of a `usize` cast `as i32` (wrap to 32 bits, reinterpret signed);
models `self.heap.len() as i32`. -/
def i32OfNat (n : Nat) : Int :=
  if n % 4294967296 < 2147483648 then ((n % 4294967296 : Nat) : Int)
  else ((n % 4294967296 : Nat) : Int) - 4294967296

/-- `VM::next_8_bits`: read the byte at `pc` (index panic if out of
bounds) and advance `pc` by 1. -/
def next8 (s : VM) : Option (Nat × VM) :=
  if s.pc < s.program.length then
    some (s.program.getD s.pc 0, { s with pc := s.pc + 1 })
  else none

/-- `VM::next_16_bits`: big-endian 16-bit read at `pc`, advancing `pc` by 2. -/
def next16 (s : VM) : Option (Nat × VM) :=
  if s.pc + 1 < s.program.length then
    some ((s.program.getD s.pc 0) * 256 + s.program.getD (s.pc + 1) 0,
          { s with pc := s.pc + 2 })
  else none

/-- `self.registers[i]` as a read (index panic if `i ≥ 32`). -/
def readReg (s : VM) (i : Nat) : Option Int := s.registers.get? i

/-- `self.registers[i] = z` (index panic if `i ≥ 32`). -/
def writeReg (s : VM) (i : Nat) (z : Int) : Option VM :=
  if i < s.registers.length then
    some { s with registers := s.registers.set i z }
  else none

/-- `Vec::resize(n, 0)` on the heap byte buffer. -/
def heapResize (h : List Nat) (n : Nat) : List Nat :=
  if n ≤ h.length then h.take n else h ++ List.replicate (n - h.length) 0

/-- The `ADD`/`SUB`/`MUL` arms of `VM::execute_instruction`:
three register-operand bytes, then `registers[r0] = registers[r1] f registers[r2]`
(overflow is a panic). -/
def arith3 (f : Int → Int → Int) (s : VM) : Option (VM × Bool) :=
  match next8 s with
  | none => none
  | some (r0, s1) =>
    match next8 s1 with
    | none => none
    | some (r1, s2) =>
      match next8 s2 with
      | none => none
      | some (r2, s3) =>
        match readReg s3 r1 with
        | none => none
        | some a =>
          match readReg s3 r2 with
          | none => none
          | some b =>
            if fitsI32 (f a b) then
              match writeReg s3 r0 (f a b) with
              | none => none
              | some s4 => some (s4, true)
            else none

/-- The comparison arms (`EQ`/`NEQ`/`GT`/`LT`/`GTE`/`LTE`) of
`VM::execute_instruction`: two register-operand bytes set the flag, then a
third byte is consumed and discarded. -/
def cmpFlag (f : Int → Int → Bool) (s : VM) : Option (VM × Bool) :=
  match next8 s with
  | none => none
  | some (r0, s1) =>
    match next8 s1 with
    | none => none
    | some (r1, s2) =>
      match readReg s2 r0 with
      | none => none
      | some a =>
        match readReg s2 r1 with
        | none => none
        | some b =>
          match next8 { s2 with equal_flag := f a b } with
          | none => none
          | some (_, s3) => some (s3, true)

/-- The dispatch arms of `VM::execute_instruction`, entered after the
opcode byte has been decoded and `pc` advanced past it.  The wildcard arm
(`JEQD`, `NOP`, `IGL`) prints "Unrecognized opcode" and stops the loop. -/
def stepOp : Opcode → VM → Option (VM × Bool)
  | .HLT, s => some (s, false)
  | .LOAD, s =>
    match next8 s with
    | none => none
    | some (r, s1) =>
      match next16 s1 with
      | none => none
      | some (n, s2) =>
        match writeReg s2 r (Int.ofNat n) with
        | none => none
        | some s3 => some (s3, true)
  | .ADD, s => arith3 (fun a b => a + b) s
  | .SUB, s => arith3 (fun a b => a - b) s
  | .MUL, s => arith3 (fun a b => a * b) s
  | .DIV, s =>
    match next8 s with
    | none => none
    | some (r0, s1) =>
      match next8 s1 with
      | none => none
      | some (r1, s2) =>
        match next8 s2 with
        | none => none
        | some (r2, s3) =>
          match readReg s3 r1 with
          | none => none
          | some a =>
            match readReg s3 r2 with
            | none => none
            | some b =>
              if b = 0 then none
              else if fitsI32 (Int.tdiv a b) then
                match writeReg s3 r0 (Int.tdiv a b) with
                | none => none
                | some s4 =>
                  match readReg s4 r1 with
                  | none => none
                  | some a2 =>
                    match readReg s4 r2 with
                    | none => none
                    | some b2 =>
                      if b2 = 0 then none
                      else if a2 = -2147483648 && b2 = -1 then none
                      else some ({ s4 with remainder := toU32 (Int.tmod a2 b2) }, true)
              else none
  | .JMP, s =>
    match next8 s with
    | none => none
    | some (r, s1) =>
      match readReg s1 r with
      | none => none
      | some t => some ({ s1 with pc := toUsize t }, true)
  | .JMPF, s =>
    match next8 s with
    | none => none
    | some (r, s1) =>
      match readReg s1 r with
      | none => none
      | some v =>
        if s1.pc + toUsize v < 18446744073709551616 then
          some ({ s1 with pc := s1.pc + toUsize v }, true)
        else none
  | .JMPB, s =>
    match next8 s with
    | none => none
    | some (r, s1) =>
      match readReg s1 r with
      | none => none
      | some v =>
        if toUsize v ≤ s1.pc then
          some ({ s1 with pc := s1.pc - toUsize v }, true)
        else none
  | .EQ, s => cmpFlag (fun a b => decide (a = b)) s
  | .NEQ, s => cmpFlag (fun a b => decide (a ≠ b)) s
  | .GT, s => cmpFlag (fun a b => decide (a > b)) s
  | .LT, s => cmpFlag (fun a b => decide (a < b)) s
  | .GTE, s => cmpFlag (fun a b => decide (a ≥ b)) s
  | .LTE, s => cmpFlag (fun a b => decide (a ≤ b)) s
  | .JEQ, s =>
    match next8 s with
    | none => none
    | some (r, s1) =>
      match readReg s1 r with
      | none => none
      | some t =>
        if s1.equal_flag then some ({ s1 with pc := toUsize t }, true)
        else some (s1, true)
  | .ALOC, s =>
    match next8 s with
    | none => none
    | some (r, s1) =>
      match readReg s1 r with
      | none => none
      | some v =>
        if fitsI32 (i32OfNat s1.heap.length + v) then
          some ({ s1 with
                  heap := heapResize s1.heap (toUsize (i32OfNat s1.heap.length + v)),
                  pc := s1.pc + 2 }, true)
        else none
  | .INC, s =>
    match next8 s with
    | none => none
    | some (r, s1) =>
      match readReg s1 r with
      | none => none
      | some x =>
        if fitsI32 (x + 1) then
          match writeReg s1 r (x + 1) with
          | none => none
          | some s2 => some ({ s2 with pc := s2.pc + 2 }, true)
        else none
  | .DEC, s =>
    match next8 s with
    | none => none
    | some (r, s1) =>
      match readReg s1 r with
      | none => none
      | some x =>
        if fitsI32 (x - 1) then
          match writeReg s1 r (x - 1) with
          | none => none
          | some s2 => some ({ s2 with pc := s2.pc + 2 }, true)
        else none
  | _, s => some (s, false)

/-- `VM::execute_instruction`: a no-op signalling termination when `pc`
has run past the program, otherwise `decode_opcode` (whose
`assert!(pc % 4 == 0)` is a panic when it fails) followed by dispatch.
The returned `Bool` is the loop-continuation flag. -/
def step (s : VM) : Option (VM × Bool) :=
  if s.program.length ≤ s.pc then some (s, false)
  else if s.pc % 4 = 0 then
    stepOp (Opcode.fromByte (s.program.getD s.pc 0)) { s with pc := s.pc + 1 }
  else none

/-- Outcome of `VM::run`: the loop returned normally, the process
panicked, or the supplied fuel ran out first. -/
inductive RunResult where
  | halted (s : VM)
  | panicked
  | outOfFuel (s : VM)
deriving DecidableEq

/-- `VM::run`: iterate `execute_instruction` while it returns `true`.
Fuel bounds the number of iterations so the model is total. -/
def run : Nat → VM → RunResult
  | 0, s => .outOfFuel s
  | fuel + 1, s =>
    match step s with
    | none => .panicked
    | some (s', true) => run fuel s'
    | some (s', false) => .halted s'

/-- `n` invocations of `VM::run_once` (each executes one instruction;
`none` if any of them panics). -/
def stepsN : Nat → VM → Option VM
  | 0, s => some s
  | n + 1, s =>
    match step s with
    | none => none
    | some (s', _) => stepsN n s'

/-- The token type of `src/assembler/mod.rs` (label and directive names
are lists of character codes). -/
inductive Token where
  | Op (code : Opcode)
  | Register (reg_num : Nat)
  | IntegerOperand (value : Int)
  | LabelDeclaration (name : List Nat)
  | LabelUsage (name : List Nat)
  | Directive (name : List Nat)
deriving DecidableEq

/-- `AssemblerInstruction` of `src/assembler/mod.rs`. -/
structure AssemblerInstruction where
  opcode : Option Token
  label : Option Token
  directive : Option Token
  operand1 : Option Token
  operand2 : Option Token
  operand3 : Option Token
deriving DecidableEq

/-- `Program` of `src/assembler/mod.rs`. -/
structure Program where
  instructions : List AssemblerInstruction
deriving DecidableEq

/-- `Symbol` of `src/assembler/mod.rs` (the `symbol_type` field is always
`SymbolType::Label` and is omitted; named `AsmSymbol` here because Lean
already has a `Symbol`). -/
structure AsmSymbol where
  name : List Nat
  offset : Nat
deriving DecidableEq

/-- `SymbolTable` of `src/assembler/mod.rs`: symbols in insertion order. -/
structure SymbolTable where
  symbols : List AsmSymbol
deriving DecidableEq

/-- The scan inside `SymbolTable::symbol_value`: the first symbol whose
name matches wins. -/
def symbolValueGo : List AsmSymbol → List Nat → Option Nat
  | [], _ => none
  | sym :: rest, s => if sym.name = s then some sym.offset else symbolValueGo rest s

/-- `SymbolTable::symbol_value`. -/
def SymbolTable.symbol_value (t : SymbolTable) (s : List Nat) : Option Nat :=
  symbolValueGo t.symbols s

/-- Operand encoding inside `AssemblerInstruction::to_bytes`: one raw byte
for a register, a big-endian split of the low 16 bits for an integer or a
resolved label offset; an unresolved label or a misplaced token kind is a
panic (`none`). -/
def encodeOperand (tbl : SymbolTable) : Option Token → Option (List Nat)
  | none => some []
  | some (Token.Register r) => some [r]
  | some (Token.IntegerOperand v) =>
    some [((v % 65536).toNat) / 256, ((v % 65536).toNat) % 256]
  | some (Token.LabelUsage n) =>
    match tbl.symbol_value n with
    | none => none
    | some off => some [(off / 256) % 256, off % 256]
  | some _ => none

/-- The opcode-field bytes inside `AssemblerInstruction::to_bytes`: an
`Op` token pushes its code byte; any other content (including `None`, the
directive-only case) pushes nothing. -/
def opcodeBytes : Option Token → List Nat
  | some (Token.Op c) => [c.toByte]
  | some _ => []
  | none => []

/-- `AssemblerInstruction::to_bytes`: opcode byte, the three operands in
order, then `assert!(result.len() <= 4)` (a panic when it fails) and
zero-padding up to 4 bytes. -/
def AssemblerInstruction.to_bytes (i : AssemblerInstruction) (tbl : SymbolTable) :
    Option (List Nat) :=
  match encodeOperand tbl i.operand1, encodeOperand tbl i.operand2,
        encodeOperand tbl i.operand3 with
  | some b1, some b2, some b3 =>
    if 4 < (opcodeBytes i.opcode ++ b1 ++ b2 ++ b3).length then none
    else some ((opcodeBytes i.opcode ++ b1 ++ b2 ++ b3) ++
      List.replicate (4 - (opcodeBytes i.opcode ++ b1 ++ b2 ++ b3).length) 0)
  | _, _, _ => none

/-- The loop of `Assembler::extract_labels`: walk the instructions with a
running offset advancing by 4, pushing a symbol for every label
declaration. -/
def extractGo : List AssemblerInstruction → Nat → List AsmSymbol
  | [], _ => []
  | i :: rest, pos =>
    match i.label with
    | some (Token.LabelDeclaration name) => ⟨name, pos⟩ :: extractGo rest (pos + 4)
    | _ => extractGo rest (pos + 4)

/-- `Assembler::extract_labels` (phase one). -/
def extract_labels (p : Program) : SymbolTable := ⟨extractGo p.instructions 0⟩

/-- The loop of `Assembler::process_second_phase`: concatenate the
per-instruction encodings, propagating a panic. -/
def secondPhaseGo (tbl : SymbolTable) : List AssemblerInstruction → Option (List Nat)
  | [] => some []
  | i :: rest =>
    match i.to_bytes tbl with
    | none => none
    | some bs =>
      match secondPhaseGo tbl rest with
      | none => none
      | some bss => some (bs ++ bss)

/-- `Assembler::process_second_phase`. -/
def process_second_phase (p : Program) (tbl : SymbolTable) : Option (List Nat) :=
  secondPhaseGo tbl p.instructions

/-- `Assembler::write_pie_header`: the 4 magic bytes zero-padded to 64. -/
def pie_header : List Nat := [45, 50, 49, 45] ++ List.replicate 60 0

/-- Result of a nom parser from `src/assembler/asm_parsers.rs`: success
with the remaining input, a recoverable parse failure (the caller
backtracks to its own input), or a panic (`unwrap()` of a numeric
overflow). -/
inductive PRes (α : Type) where
  | ok (a : α) (rest : List Nat)
  | fail
  | panic
deriving DecidableEq

/-- ASCII whitespace, the separator set of nom's `ws!`/`multispace`. -/
def wsCode (c : Nat) : Bool := c == 32 || c == 9 || c == 10 || c == 13

/-- ASCII decimal digit (nom's `digit`). -/
def digitCode (c : Nat) : Bool := decide (48 ≤ c) && decide (c ≤ 57)

/-- ASCII letter (nom's `alpha1`; claim inputs are ASCII). -/
def alphaCode (c : Nat) : Bool :=
  (decide (65 ≤ c) && decide (c ≤ 90)) || (decide (97 ≤ c) && decide (c ≤ 122))

/-- ASCII letter or digit (nom's `alphanumeric`). -/
def alnumCode (c : Nat) : Bool := alphaCode c || digitCode c

/-- Drop leading whitespace: the separator step of nom's `ws!`. -/
def skipWs (l : List Nat) : List Nat := l.dropWhile wsCode

/-- nom's `tag!`: match an exact code sequence. -/
def tagP : List Nat → List Nat → PRes Unit
  | [], l => .ok () l
  | _ :: _, [] => .fail
  | t :: ts, c :: cs => if c = t then tagP ts cs else .fail

/-- nom's one-or-more character-class combinators (`alpha1`, `digit`,
`alphanumeric`, `multispace`): the longest nonempty prefix satisfying `p`. -/
def take1While (p : Nat → Bool) (l : List Nat) : PRes (List Nat) :=
  match l.takeWhile p with
  | [] => .fail
  | c :: cs => .ok (c :: cs) (l.dropWhile p)

/-- The numeric value of a digit-code string, as `str::parse` computes it. -/
def digitsToNat (l : List Nat) : Nat :=
  l.foldl (fun a c => 10 * a + (c - 48)) 0

/-- The character codes of a string. -/
def codes (s : String) : List Nat := s.toList.map Char.toNat

/-- `impl From<CompleteStr> for Opcode` in `src/instruction.rs`: exact
match on the all-lowercase or all-uppercase mnemonic, anything else `IGL`. -/
def Opcode.fromMnemonic (m : List Nat) : Opcode :=
  if m = codes "eq" ∨ m = codes "EQ" then .EQ
  else if m = codes "gt" ∨ m = codes "GT" then .GT
  else if m = codes "lt" ∨ m = codes "LT" then .LT
  else if m = codes "add" ∨ m = codes "ADD" then .ADD
  else if m = codes "sub" ∨ m = codes "SUB" then .SUB
  else if m = codes "mul" ∨ m = codes "MUL" then .MUL
  else if m = codes "div" ∨ m = codes "DIV" then .DIV
  else if m = codes "hlt" ∨ m = codes "HLT" then .HLT
  else if m = codes "jmp" ∨ m = codes "JMP" then .JMP
  else if m = codes "neq" ∨ m = codes "NEQ" then .NEQ
  else if m = codes "gte" ∨ m = codes "GTE" then .GTE
  else if m = codes "lte" ∨ m = codes "LTE" then .LTE
  else if m = codes "jeq" ∨ m = codes "JEQ" then .JEQ
  else if m = codes "nop" ∨ m = codes "NOP" then .NOP
  else if m = codes "inc" ∨ m = codes "INC" then .INC
  else if m = codes "dec" ∨ m = codes "DEC" then .DEC
  else if m = codes "load" ∨ m = codes "LOAD" then .LOAD
  else if m = codes "aloc" ∨ m = codes "ALOC" then .ALOC
  else if m = codes "jmpf" ∨ m = codes "JMPF" then .JMPF
  else if m = codes "jmpb" ∨ m = codes "JMPB" then .JMPB
  else if m = codes "jeqd" ∨ m = codes "JEQD" then .JEQD
  else .IGL

/-- `opcode_parser`: a bare `alpha1` mnemonic (no `ws!` wrapper). -/
def opcode_token (l : List Nat) : PRes Token :=
  match take1While alphaCode l with
  | .ok cs rest => .ok (Token.Op (Opcode.fromMnemonic cs)) rest
  | .fail => .fail
  | .panic => .panic

/-- `register`: `ws!(tag!("$") >> digit)`, with `parse::<u8>().unwrap()`
panicking on values above 255. -/
def register (l : List Nat) : PRes Token :=
  match tagP [36] (skipWs l) with
  | .fail => .fail
  | .panic => .panic
  | .ok _ l1 =>
    match take1While digitCode (skipWs l1) with
    | .fail => .fail
    | .panic => .panic
    | .ok ds l2 =>
      if digitsToNat ds < 256 then .ok (Token.Register (digitsToNat ds)) (skipWs l2)
      else .panic

/-- `integer_operand`: `ws!(tag!("#") >> digit)`, with
`parse::<i32>().unwrap()` panicking on values at or above 2^31. -/
def integer_operand (l : List Nat) : PRes Token :=
  match tagP [35] (skipWs l) with
  | .fail => .fail
  | .panic => .panic
  | .ok _ l1 =>
    match take1While digitCode (skipWs l1) with
    | .fail => .fail
    | .panic => .panic
    | .ok ds l2 =>
      if digitsToNat ds < 2147483648 then
        .ok (Token.IntegerOperand (Int.ofNat (digitsToNat ds))) (skipWs l2)
      else .panic

/-- `label_usage`: `ws!(tag!("@") >> alphanumeric >> opt!(multispace))`
(the trailing `opt!(multispace)` and `ws!`'s trailing separator collapse
into one whitespace skip). -/
def label_usage (l : List Nat) : PRes Token :=
  match tagP [64] (skipWs l) with
  | .fail => .fail
  | .panic => .panic
  | .ok _ l1 =>
    match take1While alnumCode (skipWs l1) with
    | .fail => .fail
    | .panic => .panic
    | .ok n l2 => .ok (Token.LabelUsage n) (skipWs l2)

/-- `label_declaration`: `ws!(alphanumeric >> tag!(":") >> opt!(multispace))`
(trailing whitespace handling collapsed as in `label_usage`). -/
def label_declaration (l : List Nat) : PRes Token :=
  match take1While alnumCode (skipWs l) with
  | .fail => .fail
  | .panic => .panic
  | .ok n l1 =>
    match tagP [58] (skipWs l1) with
    | .fail => .fail
    | .panic => .panic
    | .ok _ l2 => .ok (Token.LabelDeclaration n) (skipWs l2)

/-- `operand`: `alt!(integer_operand | register | label_usage)`. -/
def operand (l : List Nat) : PRes Token :=
  match integer_operand l with
  | .ok a r => .ok a r
  | .panic => .panic
  | .fail =>
    match register l with
    | .ok a r => .ok a r
    | .panic => .panic
    | .fail => label_usage l

/-- nom's `opt!`: a failure consumes nothing. -/
def optP {α : Type} (p : List Nat → PRes α) (l : List Nat) : PRes (Option α) :=
  match p l with
  | .ok a r => .ok (some a) r
  | .fail => .ok none l
  | .panic => .panic

/-- `directive_declaration`: `tag!(".") >> alpha1`. -/
def directive_declaration (l : List Nat) : PRes Token :=
  match tagP [46] l with
  | .fail => .fail
  | .panic => .panic
  | .ok _ l1 =>
    match take1While alphaCode l1 with
    | .fail => .fail
    | .panic => .panic
    | .ok n l2 => .ok (Token.Directive n) l2

/-- `directive_combined` (and therefore `directive`):
`ws!(opt!(label_declaration) >> directive_declaration >> opt!(operand) x3)`. -/
def directive_combined (l : List Nat) : PRes AssemblerInstruction :=
  match optP label_declaration (skipWs l) with
  | .fail => .fail
  | .panic => .panic
  | .ok lab l1 =>
    match directive_declaration (skipWs l1) with
    | .fail => .fail
    | .panic => .panic
    | .ok dir l2 =>
      match optP operand l2 with
      | .fail => .fail
      | .panic => .panic
      | .ok o1 l3 =>
        match optP operand l3 with
        | .fail => .fail
        | .panic => .panic
        | .ok o2 l4 =>
          match optP operand l4 with
          | .fail => .fail
          | .panic => .panic
          | .ok o3 l5 =>
            .ok { opcode := none, label := lab, directive := some dir,
                  operand1 := o1, operand2 := o2, operand3 := o3 } (skipWs l5)

/-- `instruction_combined`:
`opt!(label_declaration) >> opcode_parser >> opt!(operand) x3` (no `ws!`). -/
def instruction_combined (l : List Nat) : PRes AssemblerInstruction :=
  match optP label_declaration l with
  | .fail => .fail
  | .panic => .panic
  | .ok lab l1 =>
    match opcode_token l1 with
    | .fail => .fail
    | .panic => .panic
    | .ok op l2 =>
      match optP operand l2 with
      | .fail => .fail
      | .panic => .panic
      | .ok o1 l3 =>
        match optP operand l3 with
        | .fail => .fail
        | .panic => .panic
        | .ok o2 l4 =>
          match optP operand l4 with
          | .fail => .fail
          | .panic => .panic
          | .ok o3 l5 =>
            .ok { opcode := some op, label := lab, directive := none,
                  operand1 := o1, operand2 := o2, operand3 := o3 } l5

/-- `instruction`: `alt!(instruction_combined | directive)`. -/
def instruction (l : List Nat) : PRes AssemblerInstruction :=
  match instruction_combined l with
  | .ok a r => .ok a r
  | .panic => .panic
  | .fail => directive_combined l

/-- The iteration inside nom's `many1!`: keep applying `instruction`
until it fails, accumulating results.  Each success consumes at least one
code, so fuel `rest.length + 1` never runs out; the fuel-exhausted arm
returns what was accumulated. -/
def manyGo : Nat → List Nat → List AssemblerInstruction →
    PRes (List AssemblerInstruction)
  | 0, l, acc => .ok acc.reverse l
  | fuel + 1, l, acc =>
    match instruction l with
    | .fail => .ok acc.reverse l
    | .panic => .panic
    | .ok a rest => manyGo fuel rest (a :: acc)

/-- `program`: `many1!(instruction)` packed into a `Program`. -/
def parseProgram (l : List Nat) : PRes Program :=
  match instruction l with
  | .fail => .fail
  | .panic => .panic
  | .ok a rest =>
    match manyGo (rest.length + 1) rest [a] with
    | .fail => .fail
    | .panic => .panic
    | .ok ins rem => .ok ⟨ins⟩ rem

/-- Outcome of `Assembler::assemble`: `failure` is Rust's `None`,
`panicked` is a process-terminating panic, `ok` is `Some(bytes)`. -/
inductive AsmResult where
  | failure
  | panicked
  | ok (bytes : List Nat)
deriving DecidableEq

/-- `Assembler::assemble` on a code list: parse (`None` on failure,
ignoring any unparsed remainder), then header + phase one + phase two
(a phase-two panic terminates the process). -/
def assembleCodes (l : List Nat) : AsmResult :=
  match parseProgram l with
  | .fail => .failure
  | .panic => .panicked
  | .ok p _rem =>
    match process_second_phase p (extract_labels p) with
    | none => .panicked
    | some body => .ok (pie_header ++ body)

/-- `Assembler::assemble` on a source string. -/
def assemble (raw : String) : AsmResult := assembleCodes (codes raw)

/-- Value of a little-endian base-10 digit list. -/
def valLE : List Nat → Nat
  | [] => 0
  | d :: L => d + 10 * valLE L

/-- Little-endian base-10 digits of `n`, with explicit fuel (empty for 0). -/
def toDecimalAux : Nat → Nat → List Nat
  | 0, _ => []
  | fuel + 1, n => if n = 0 then [] else n % 10 :: toDecimalAux fuel (n / 10)

/-- Little-endian base-10 digits of `n` (`[0]` for 0). -/
def decimalDigits (n : Nat) : List Nat := if n = 0 then [0] else toDecimalAux n n

/-- The character codes of the usual decimal rendering of `n`
(most significant digit first), as in `format!("{n}")`. -/
def decimalCodes (n : Nat) : List Nat :=
  ((decimalDigits n).map (fun d => 48 + d)).reverse

/-- The character codes of the source line `load $r #v`. -/
def loadCodes (r v : Nat) : List Nat :=
  108 :: 111 :: 97 :: 100 :: 32 :: 36 ::
    (decimalCodes r ++ 32 :: 35 :: decimalCodes v)

/-- The instruction record the parser produces for `load $r #v`. -/
def loadIns (r v : Nat) : AssemblerInstruction :=
  { opcode := some (Token.Op Opcode.LOAD), label := none, directive := none,
    operand1 := some (Token.Register r),
    operand2 := some (Token.IntegerOperand (Int.ofNat v)), operand3 := none }

/-- The body bytes `to_bytes` produces for `load $r #v` (`v` below 2^16). -/
def loadBody (r v : Nat) : List Nat := [1, r, v / 256, v % 256]

/-- The VM state after executing `load $r #v` from a fresh VM. -/
def loadFinal (r v : Nat) : VM :=
  { registers := (List.replicate 32 0).set r (Int.ofNat v), pc := 4,
    program := loadBody r v, remainder := 0, equal_flag := false, heap := [] }

/-- The round-trip source of §8 of the spec and of the repository's own
`test_assemble_program`. -/
def c1Source : String := "load $0 #100\ntest: inc $2\nneq $0 $2\njeqd @test\nhlt"

/-- The instruction records `test_assemble_program` expects for `c1Source`. -/
def c1Prog : Program :=
  ⟨[{ opcode := some (Token.Op Opcode.LOAD), label := none, directive := none,
      operand1 := some (Token.Register 0),
      operand2 := some (Token.IntegerOperand 100), operand3 := none },
    { opcode := some (Token.Op Opcode.INC),
      label := some (Token.LabelDeclaration [116, 101, 115, 116]),
      directive := none, operand1 := some (Token.Register 2),
      operand2 := none, operand3 := none },
    { opcode := some (Token.Op Opcode.NEQ), label := none, directive := none,
      operand1 := some (Token.Register 0), operand2 := some (Token.Register 2),
      operand3 := none },
    { opcode := some (Token.Op Opcode.JEQD), label := none, directive := none,
      operand1 := some (Token.LabelUsage [116, 101, 115, 116]),
      operand2 := none, operand3 := none },
    { opcode := some (Token.Op Opcode.HLT), label := none, directive := none,
      operand1 := none, operand2 := none, operand3 := none }]⟩

/-- The 20 body bytes assembled from `c1Source`. -/
def c1Body : List Nat :=
  [1, 0, 0, 100, 19, 2, 0, 0, 10, 0, 2, 0, 15, 0, 4, 0, 0, 0, 0, 0]

/-- The state in which `run` actually leaves the VM on `c1Body`: halted at
the unhandled `JEQD` opcode byte with `pc = 13`. -/
def c1Final : VM :=
  { registers := (((List.replicate 32 0).set 0 100).set 2 1), pc := 13,
    program := c1Body, remainder := 0, equal_flag := true, heap := [] }

/-- A `jeq $0` whose flag is clear, followed by a `hlt` slot. -/
def c3VM : VM := { VM.new with program := [16, 0, 0, 0, 0, 0, 0, 0] }

/-- The state after the not-taken `JEQ`: `pc = 2`, mid-slot. -/
def c3Mid : VM := { c3VM with pc := 2 }

/-- A parser-accepted record whose operands contribute 6 bytes. -/
def c4BadSrc : String := "load #1 #2 #3"

/-- The record the parser produces for `c4BadSrc`. -/
def c4BadIns : AssemblerInstruction :=
  { opcode := some (Token.Op Opcode.LOAD), label := none, directive := none,
    operand1 := some (Token.IntegerOperand 1),
    operand2 := some (Token.IntegerOperand 2),
    operand3 := some (Token.IntegerOperand 3) }

/-- A well-formed single-`hlt` record (witness input for encoding length). -/
def c4HltIns : AssemblerInstruction :=
  { opcode := some (Token.Op Opcode.HLT), label := none, directive := none,
    operand1 := none, operand2 := none, operand3 := none }

/-- Two declarations of the same label `a`, at offsets 0 and 4. -/
def c5Source : String := "a: hlt\na: hlt"

/-- The records parsed from `c5Source`. -/
def c5Prog : Program :=
  ⟨[{ opcode := some (Token.Op Opcode.HLT),
      label := some (Token.LabelDeclaration [97]), directive := none,
      operand1 := none, operand2 := none, operand3 := none },
    { opcode := some (Token.Op Opcode.HLT),
      label := some (Token.LabelDeclaration [97]), directive := none,
      operand1 := none, operand2 := none, operand3 := none }]⟩

/-- The amended-specification description of the symbol table: the offset
of the first declaration of `name` in program order (4 per record). -/
def firstDeclGo : List AssemblerInstruction → Nat → List Nat → Option Nat
  | [], _, _ => none
  | i :: rest, pos, name =>
    match i.label with
    | some (Token.LabelDeclaration n) =>
      if n = name then some pos else firstDeclGo rest (pos + 4) name
    | _ => firstDeclGo rest (pos + 4) name

/-- Offset of the first declaration of `name` in `p` (amended spec). -/
def firstDeclarationOffset (p : Program) (name : List Nat) : Option Nat :=
  firstDeclGo p.instructions 0 name

/-- A label usage with no declaration anywhere. -/
def c6BadLabelSrc : String := "jmp @nowhere"

/-- A source that assembles successfully (witness input). -/
def c6OkSrc : String := "hlt"

/-- `div $0 $0 $1` with `registers[0] = 7`, `registers[1] = 3`: the
destination aliases the dividend register. -/
def c7CxVM : VM :=
  { VM.new with program := [5, 0, 0, 1],
                registers := ((List.replicate 32 0).set 0 7).set 1 3 }

/-- What executing `c7CxVM` produces: the remainder is recomputed from the
already-updated destination (`2 % 3 = 2`), not from the pre-instruction
dividend (`7 % 3 = 1`). -/
def c7CxFinal : VM :=
  { c7CxVM with registers := (((List.replicate 32 0).set 0 7).set 1 3).set 0 2,
                pc := 4, remainder := 2 }

/-- `div $0 $1 $2` with `registers[1] = 7`, `registers[2] = 3` (no aliasing). -/
def c7WVM : VM :=
  { VM.new with program := [5, 0, 1, 2],
                registers := ((List.replicate 32 0).set 1 7).set 2 3 }

/-- The state after executing `c7WVM`: quotient 2, remainder 1. -/
def c7WFinal : VM :=
  { c7WVM with registers := (((List.replicate 32 0).set 1 7).set 2 3).set 0 2,
               pc := 4, remainder := 1 }

/-- `jmpf $0` at offset 0 with `registers[0] = 2`. -/
def c8CxVM : VM :=
  { VM.new with program := [7, 0, 0, 0],
                registers := (List.replicate 32 0).set 0 2 }

/-- The state after executing `c8CxVM`: `pc = 0 + 2 + 2 = 4`, not
`0 + 4 + 2 = 6`. -/
def c8CxFinal : VM := { c8CxVM with pc := 4 }

/-- `jmpb $0` in the slot at offset 4 with `registers[0] = 2` (witness input). -/
def c8WVM : VM :=
  { VM.new with program := [0, 0, 0, 0, 8, 0, 0, 0], pc := 4,
                registers := (List.replicate 32 0).set 0 2 }

/-- The state after executing `c8WVM`: `pc = 4 + 2 - 2 = 4`. -/
def c8WFinal : VM := { c8WVM with pc := 4 }

/-- Body of `load $1 #8; aloc $1; load $2 #4; load $3 #0; sub $4 $3 $2;
aloc $4; hlt`: the fifth step leaves `-4` in register 4, so the sixth
step's `ALOC` resizes the heap from 8 down to 4. -/
def c9Src : List Nat :=
  [1, 1, 0, 8, 18, 1, 0, 0, 1, 2, 0, 4, 1, 3, 0, 0, 3, 4, 3, 2, 18, 4, 0, 0,
   0, 0, 0, 0]

/-- The VM loaded with `c9Src`. -/
def c9VM : VM := VM.new.add_bytes c9Src

/-- `aloc $0` with `registers[0] = 5` and an empty heap (witness input). -/
def w9VM : VM :=
  { VM.new with program := [18, 0, 0, 0],
                registers := (List.replicate 32 0).set 0 5 }

/-- The state after executing `w9VM`: five zero bytes of heap. -/
def w9Final : VM :=
  { w9VM with pc := 4, heap := List.replicate 5 0 }

/-- The line used to ground `loadCodes` against real text (witness input). -/
def c2WitnessLine : String := "load $5 #300"

/-- Claim C10: when `pc` is at or past the end of the program buffer, one
iteration of the execute loop is a complete no-op that signals
termination: registers, pc, remainder, flag, heap and program are all
unchanged. -/
theorem c10_run_once_past_end (s : VM) (h : s.program.length ≤ s.pc) :
    step s = some (s, false) := by
  unfold step
  rw [if_pos h]

theorem c10_run_once_past_end_witness :
    VM.new.program.length ≤ VM.new.pc ∧ step VM.new = some (VM.new, false) :=
  ⟨by decide, c10_run_once_past_end VM.new (by decide)⟩

/-- Claim C1 (divergence witness): `c1Source` parses exactly as the
repository's own `test_assemble_program` expects, the symbol table maps
`test` (codes [116,101,115,116]) to 4 and the body after the 64-byte
header is 20 bytes — but running the body halts at the `JEQD` byte, which
`execute_instruction` does not handle, leaving `pc = 13 ≠ 17` and
`registers[0] = 100 ≠ 1 = registers[2]`, against the claim and the test. -/
theorem c1_roundtrip_diverges :
    parseProgram (codes c1Source) = .ok c1Prog [] ∧
    assemble c1Source = .ok (pie_header ++ c1Body) ∧
    c1Body.length = 20 ∧
    (extract_labels c1Prog).symbol_value [116, 101, 115, 116] = some 4 ∧
    run 10 (VM.new.add_bytes c1Body) = .halted c1Final ∧
    c1Final.pc = 13 ∧ ¬ c1Final.pc = 17 ∧
    c1Final.registers.getD 0 0 = 100 ∧ c1Final.registers.getD 2 0 = 1 ∧
    ¬ c1Final.registers.getD 0 0 = c1Final.registers.getD 2 0 := by
  decide

/-- Claim C3 (divergence witness): executing `jeq $0` with the flag clear
consumes only 2 of the 4 slot bytes, so `pc = 2` is not a multiple of 4 at
the next instruction boundary and the next `decode_opcode` fails its own
`assert!(pc % 4 == 0)` (a panic, `none` here). -/
theorem c3_jeq_not_taken_misaligns :
    step c3VM = some (c3Mid, true) ∧ c3Mid.pc = 2 ∧ ¬ c3Mid.pc % 4 = 0 ∧
    step c3Mid = none := by
  decide

/-- Claim C4 (counterexample): the parser accepts `load #1 #2 #3`, whose
record's operands contribute six bytes; `to_bytes` then fails its
`assert!(result.len() <= 4)` (a panic, `none`), producing no 4-byte
encoding at all. -/
theorem c4_overlong_record_panics :
    instruction (codes c4BadSrc) = .ok c4BadIns [] ∧
    c4BadIns.to_bytes ⟨[]⟩ = none := by
  decide

/-- Claim C4 (amended): whenever `to_bytes` returns bytes at all, it
returns exactly 4 of them, missing operand slots zero-filled. -/
theorem c4_encoded_length (i : AssemblerInstruction) (tbl : SymbolTable)
    (bs : List Nat) (h : i.to_bytes tbl = some bs) : bs.length = 4 := by
  unfold AssemblerInstruction.to_bytes at h
  split at h
  · rename_i b1 b2 b3 heq1 heq2 heq3
    split at h
    · exact absurd h (by simp)
    · rename_i hlen
      injection h with h
      subst h
      generalize hL : opcodeBytes i.opcode ++ b1 ++ b2 ++ b3 = L at hlen ⊢
      simp only [List.length_append, List.length_replicate]
      omega
  · exact absurd h (by simp)

theorem c4_encoded_length_witness :
    c4HltIns.to_bytes ⟨[]⟩ = some [0, 0, 0, 0] ∧
    ([0, 0, 0, 0] : List Nat).length = 4 :=
  ⟨by decide, c4_encoded_length c4HltIns ⟨[]⟩ [0, 0, 0, 0] (by decide)⟩

/-- Claim C5 (counterexample): with `a` declared at offsets 0 and 4, the
symbol table resolves `a` (code [97]) to the offset of the first
declaration, 0, not to the last one, 4, with no error reported. -/
theorem c5_duplicate_label_first_wins :
    parseProgram (codes c5Source) = .ok c5Prog [] ∧
    (extract_labels c5Prog).symbols = [⟨[97], 0⟩, ⟨[97], 4⟩] ∧
    (extract_labels c5Prog).symbol_value [97] = some 0 ∧
    ¬ (extract_labels c5Prog).symbol_value [97] = some 4 := by
  decide

theorem symbolValueGo_extractGo (l : List AssemblerInstruction) (pos : Nat)
    (name : List Nat) :
    symbolValueGo (extractGo l pos) name = firstDeclGo l pos name := by
  induction l generalizing pos with
  | nil => rfl
  | cons i rest ih =>
    cases hl : i.label with
    | none => simp [extractGo, firstDeclGo, hl, ih]
    | some t =>
      cases t with
      | LabelDeclaration n =>
        simp only [extractGo, firstDeclGo, hl, symbolValueGo]
        split
        · rfl
        · exact ih (pos + 4)
      | Op c => simp [extractGo, firstDeclGo, hl, ih]
      | Register r => simp [extractGo, firstDeclGo, hl, ih]
      | IntegerOperand v => simp [extractGo, firstDeclGo, hl, ih]
      | LabelUsage n => simp [extractGo, firstDeclGo, hl, ih]
      | Directive n => simp [extractGo, firstDeclGo, hl, ih]

/-- Claim C5 (amended): duplicate label declarations are not rejected,
and every lookup resolves a name to the offset of its first declaration
in program order — the first writer wins, because `add_symbol` appends
and `symbol_value` returns the first match. -/
theorem c5_resolves_to_first_declaration (p : Program) (name : List Nat) :
    (extract_labels p).symbol_value name = firstDeclarationOffset p name :=
  symbolValueGo_extractGo p.instructions 0 name

/-- Claim C6 (counterexample): `jmp @nowhere` parses, but its unresolved
label usage makes `to_bytes` panic (`unwrap` of a missing offset), so
`assemble` terminates the process instead of returning `None`. -/
theorem c6_unresolved_label_panics :
    assemble c6BadLabelSrc = .panicked ∧
    ¬ assemble c6BadLabelSrc = .failure := by
  decide

/-- Claim C6 (amended): `assemble` returns `None` exactly when the source
fails to parse; every successful result is the 64-byte header followed by
the encoded body; an unresolved label (or any other encoding panic)
terminates the process instead. -/
theorem c6_none_iff_parse_failure (l bs : List Nat) :
    (assembleCodes l = .failure ↔ parseProgram l = .fail) ∧
    (assembleCodes l = .ok bs → bs.take 64 = pie_header) := by
  unfold assembleCodes
  cases hp : parseProgram l with
  | fail => simp
  | panic => simp
  | ok p rem =>
    dsimp only
    cases hs : process_second_phase p (extract_labels p) with
    | none => simp
    | some body =>
      refine ⟨by simp, ?_⟩
      intro h
      injection h with h
      subst h
      have hlen : pie_header.length = 64 := by decide
      rw [← hlen, List.take_left]

theorem c6_none_iff_parse_failure_witness :
    ((assembleCodes (codes c6OkSrc) = .failure ↔
        parseProgram (codes c6OkSrc) = .fail) ∧
      (assembleCodes (codes c6OkSrc) = .ok (pie_header ++ [0, 0, 0, 0]) →
        (pie_header ++ [0, 0, 0, 0]).take 64 = pie_header)) :=
  c6_none_iff_parse_failure (codes c6OkSrc) (pie_header ++ [0, 0, 0, 0])

theorem next8_eq (s : VM) (h : s.pc < s.program.length) :
    next8 s = some (s.program.getD s.pc 0, { s with pc := s.pc + 1 }) := by
  unfold next8
  rw [if_pos h]

theorem next16_eq (s : VM) (h : s.pc + 1 < s.program.length) :
    next16 s = some ((s.program.getD s.pc 0) * 256 + s.program.getD (s.pc + 1) 0,
      { s with pc := s.pc + 2 }) := by
  unfold next16
  rw [if_pos h]

theorem writeReg_eq (s : VM) (i : Nat) (z : Int) (h : i < s.registers.length) :
    writeReg s i z = some { s with registers := s.registers.set i z } := by
  unfold writeReg
  rw [if_pos h]

theorem toUsize_of_nonneg (v : Int) (h0 : 0 ≤ v) (h64 : v < 18446744073709551616) :
    toUsize v = v.toNat := by
  unfold toUsize
  rw [Int.emod_eq_of_lt h0 h64]

/-- Claim C7 (amended): when the destination register of `DIV` is distinct
from both source registers, the quotient and the remainder both come from
the pre-instruction register values (the remainder as its `u32` cast).
When the destination aliases a source, the remainder is recomputed from
the already-updated registers instead — see the counterexample. -/
theorem c7_div_uses_pre_values (s s' : VM) (c : Bool) (d s1 s2 : Nat) (a b : Int)
    (h : step s = some (s', c))
    (hop : s.program.getD s.pc 0 = 5)
    (h1 : s.program.getD (s.pc + 1) 0 = d)
    (h2 : s.program.getD (s.pc + 2) 0 = s1)
    (h3 : s.program.getD (s.pc + 3) 0 = s2)
    (hlen : s.pc + 3 < s.program.length)
    (hal : s.pc % 4 = 0)
    (ha : s.registers.get? s1 = some a)
    (hb : s.registers.get? s2 = some b)
    (hb0 : ¬ b = 0)
    (hfit : fitsI32 (Int.tdiv a b) = true)
    (hd : d < s.registers.length)
    (hds1 : ¬ d = s1) (hds2 : ¬ d = s2) :
    c = true ∧ s'.registers.get? d = some (Int.tdiv a b) ∧
      s'.remainder = toU32 (Int.tmod a b) ∧ s'.pc = s.pc + 4 := by
  obtain ⟨regs, pc, prog, rem, flag, heap⟩ := s
  dsimp only at hop h1 h2 h3 hlen hal ha hb hd
  unfold step at h
  rw [if_neg (by dsimp only; omega), if_pos (by dsimp only; omega)] at h
  dsimp only at h
  rw [hop, show Opcode.fromByte 5 = Opcode.DIV from rfl] at h
  simp only [stepOp] at h
  rw [next8_eq _ (by dsimp only; omega)] at h
  dsimp only at h
  rw [h1] at h
  rw [next8_eq _ (by dsimp only; omega)] at h
  dsimp only at h
  rw [show pc + 1 + 1 = pc + 2 from rfl, h2] at h
  rw [next8_eq _ (by dsimp only; omega)] at h
  dsimp only at h
  rw [show pc + 2 + 1 = pc + 3 from rfl, h3] at h
  simp only [readReg] at h
  rw [ha, hb] at h
  dsimp only at h
  rw [if_neg hb0, if_pos hfit] at h
  rw [writeReg_eq _ _ _ (by dsimp only; omega)] at h
  dsimp only at h
  rw [List.get?_set_ne _ _ hds1, List.get?_set_ne _ _ hds2, ha, hb] at h
  dsimp only at h
  rw [if_neg hb0] at h
  have hov : ¬ ((decide (a = -2147483648) && decide (b = -1)) = true) := by
    intro hcontra
    simp only [Bool.and_eq_true, decide_eq_true_eq] at hcontra
    obtain ⟨rfl, rfl⟩ := hcontra
    exact absurd hfit (by decide)
  rw [if_neg hov] at h
  injection h with h
  injection h with h hc
  subst h
  refine ⟨hc.symm, ?_, rfl, rfl⟩
  dsimp only
  exact List.get?_set_eq_of_lt _ hd

/-- Claim C7 (counterexample): `div $0 $0 $1` with `registers[0] = 7` and
`registers[1] = 3` sets the remainder to `(7 / 3) % 3 = 2`, not to the
pre-instruction `7 % 3 = 1`, because the remainder is computed after the
destination register (aliasing the dividend) has been overwritten. -/
theorem c7_div_alias_remainder :
    step c7CxVM = some (c7CxFinal, true) ∧ c7CxFinal.remainder = 2 ∧
    ¬ c7CxFinal.remainder = toU32 (Int.tmod 7 3) := by
  decide

theorem c7_div_uses_pre_values_witness :
    true = true ∧ c7WFinal.registers.get? 0 = some (Int.tdiv 7 3) ∧
      c7WFinal.remainder = toU32 (Int.tmod 7 3) ∧ c7WFinal.pc = c7WVM.pc + 4 :=
  c7_div_uses_pre_values c7WVM c7WFinal true 0 1 2 7 3 (by decide) (by decide)
    (by decide) (by decide) (by decide) (by decide) (by decide) (by decide)
    (by decide) (by decide) (by decide) (by decide) (by decide) (by decide)

/-- Claim C8 (amended): for a nonnegative register value `v`, `JMPF` sets
`pc` to `p + 2 + v` and `JMPB` to `p + 2 - v`, where `p` is the slot's
byte offset: the base is the pc after the opcode and register bytes only
(`p + 2`), not the end of the 4-byte slot (`p + 4`) the claim states.
A negative `v` converts `as usize` to a huge offset, panicking under
checked arithmetic — hence the nonnegativity hypothesis. -/
theorem c8_jump_relative_to_operand_pc (s s' : VM) (c : Bool) (r : Nat) (v : Int)
    (h : step s = some (s', c))
    (h1 : s.program.getD (s.pc + 1) 0 = r)
    (hlen : s.pc + 1 < s.program.length)
    (hal : s.pc % 4 = 0)
    (hv : s.registers.get? r = some v)
    (hv0 : 0 ≤ v)
    (hv64 : v < 18446744073709551616) :
    (s.program.getD s.pc 0 = 7 → s.pc + 2 + v.toNat < 18446744073709551616 →
      c = true ∧ s'.pc = s.pc + 2 + v.toNat) ∧
    (s.program.getD s.pc 0 = 8 → v.toNat ≤ s.pc + 2 →
      c = true ∧ s'.pc = s.pc + 2 - v.toNat) := by
  obtain ⟨regs, pc, prog, rem, flag, heap⟩ := s
  dsimp only at h1 hlen hal hv ⊢
  constructor
  · intro hop hbound
    unfold step at h
    rw [if_neg (by dsimp only; omega), if_pos (by dsimp only; omega)] at h
    dsimp only at h
    rw [hop, show Opcode.fromByte 7 = Opcode.JMPF from rfl] at h
    simp only [stepOp] at h
    rw [next8_eq _ (by dsimp only; omega)] at h
    dsimp only at h
    rw [h1] at h
    simp only [readReg] at h
    rw [hv] at h
    dsimp only at h
    rw [toUsize_of_nonneg v hv0 hv64] at h
    rw [if_pos (by omega)] at h
    injection h with h
    injection h with hs hc
    subst hs
    exact ⟨hc.symm, rfl⟩
  · intro hop hbound
    unfold step at h
    rw [if_neg (by dsimp only; omega), if_pos (by dsimp only; omega)] at h
    dsimp only at h
    rw [hop, show Opcode.fromByte 8 = Opcode.JMPB from rfl] at h
    simp only [stepOp] at h
    rw [next8_eq _ (by dsimp only; omega)] at h
    dsimp only at h
    rw [h1] at h
    simp only [readReg] at h
    rw [hv] at h
    dsimp only at h
    rw [toUsize_of_nonneg v hv0 hv64] at h
    rw [if_pos (by omega)] at h
    injection h with h
    injection h with hs hc
    subst hs
    exact ⟨hc.symm, rfl⟩

/-- Claim C8 (counterexample): `jmpf $0` in the slot at offset 0 with
`registers[0] = 2` leaves `pc = 4` (`= 0 + 2 + 2`, matching the
repository's own `test_jmpf_opcode`), not `0 + 4 + 2 = 6` as the claim
states. -/
theorem c8_jmpf_base_is_pc_plus_two :
    step c8CxVM = some (c8CxFinal, true) ∧ c8CxFinal.pc = 4 ∧
    ¬ c8CxFinal.pc = 0 + 4 + 2 := by
  decide

theorem c8_jump_relative_to_operand_pc_witness :
    (c8WVM.program.getD c8WVM.pc 0 = 7 →
      c8WVM.pc + 2 + (2 : Int).toNat < 18446744073709551616 →
      true = true ∧ c8WFinal.pc = c8WVM.pc + 2 + (2 : Int).toNat) ∧
    (c8WVM.program.getD c8WVM.pc 0 = 8 → (2 : Int).toNat ≤ c8WVM.pc + 2 →
      true = true ∧ c8WFinal.pc = c8WVM.pc + 2 - (2 : Int).toNat) :=
  c8_jump_relative_to_operand_pc c8WVM c8WFinal true 0 2 (by decide) (by decide)
    (by decide) (by decide) (by decide) (by decide) (by decide)
theorem heapResize_length (h : List Nat) (n : Nat) : (heapResize h n).length = n := by
  unfold heapResize
  split
  · simp only [List.length_take]
    omega
  · simp only [List.length_append, List.length_replicate]
    omega

theorem next8_some {x : VM} {r : Nat} {y : VM} (h : next8 x = some (r, y)) :
    y = { x with pc := x.pc + 1 } := by
  unfold next8 at h
  split at h
  · injection h with h1
    injection h1 with hr hy
    exact hy.symm
  · exact absurd h (by simp)

theorem next16_some {x : VM} {n : Nat} {y : VM} (h : next16 x = some (n, y)) :
    y = { x with pc := x.pc + 2 } := by
  unfold next16 at h
  split at h
  · injection h with h1
    injection h1 with hr hy
    exact hy.symm
  · exact absurd h (by simp)

theorem writeReg_some {x : VM} {i : Nat} {z : Int} {y : VM}
    (h : writeReg x i z = some y) :
    y = { x with registers := x.registers.set i z } := by
  unfold writeReg at h
  split at h
  · injection h with h1
    exact h1.symm
  · exact absurd h (by simp)

theorem arith3_heap {f : Int → Int → Int} {x : VM} {p : VM × Bool}
    (h : arith3 f x = some p) : p.1.heap = x.heap := by
  unfold arith3 at h
  split at h
  · exact absurd h (by simp)
  rename_i r0 s1 heq1
  obtain rfl := next8_some heq1
  split at h
  · exact absurd h (by simp)
  rename_i r1 s2 heq2
  obtain rfl := next8_some heq2
  split at h
  · exact absurd h (by simp)
  rename_i r2 s3 heq3
  obtain rfl := next8_some heq3
  split at h
  · exact absurd h (by simp)
  rename_i a heq4
  split at h
  · exact absurd h (by simp)
  rename_i b heq5
  split at h
  · split at h
    · exact absurd h (by simp)
    rename_i s4 heq6
    obtain rfl := writeReg_some heq6
    injection h with h1
    rw [← h1]
  · exact absurd h (by simp)

theorem cmpFlag_heap {f : Int → Int → Bool} {x : VM} {p : VM × Bool}
    (h : cmpFlag f x = some p) : p.1.heap = x.heap := by
  unfold cmpFlag at h
  split at h
  · exact absurd h (by simp)
  rename_i r0 s1 heq1
  obtain rfl := next8_some heq1
  split at h
  · exact absurd h (by simp)
  rename_i r1 s2 heq2
  obtain rfl := next8_some heq2
  split at h
  · exact absurd h (by simp)
  rename_i a heq3
  split at h
  · exact absurd h (by simp)
  rename_i b heq4
  split at h
  · exact absurd h (by simp)
  rename_i q s3 heq5
  obtain rfl := next8_some heq5
  injection h with h1
  rw [← h1]

/-- Claim C9 (amended): every instruction other than `ALOC` leaves the
heap untouched, and `ALOC` with a nonnegative register value `v` (and no
`i32` overflow) grows the heap by exactly `v` bytes.  With a negative
value, however, `Vec::resize` shrinks the heap — see the counterexample —
so "the heap never decreases" does not hold unconditionally. -/
theorem c9_heap_growth (s s' : VM) (c : Bool) (h : step s = some (s', c)) :
    (Opcode.fromByte (s.program.getD s.pc 0) ≠ Opcode.ALOC → s'.heap = s.heap) ∧
    (∀ v : Int, Opcode.fromByte (s.program.getD s.pc 0) = Opcode.ALOC →
      s.registers.get? (s.program.getD (s.pc + 1) 0) = some v → 0 ≤ v →
      s.heap.length < 2147483648 → (s.heap.length : Int) + v < 2147483648 →
      s'.heap.length = s.heap.length + v.toNat) := by
  obtain ⟨regs, pc, prog, rem, flag, heap⟩ := s
  dsimp only at h ⊢
  unfold step at h
  split at h
  · rename_i hend
    injection h with h
    injection h with hs hc
    subst hs
    refine ⟨fun _ => rfl, fun v hop _ _ _ _ => ?_⟩
    exfalso
    rw [List.getD_eq_default _ _ (by dsimp only at hend ⊢; omega)] at hop
    exact absurd hop (by decide)
  split at h
  case isFalse => exact absurd h (by simp)
  rename_i hin hal
  dsimp only at hin hal
  generalize hop : Opcode.fromByte (prog.getD pc 0) = op at h ⊢
  cases op with
  | ALOC =>
    refine ⟨fun hne => absurd rfl hne, fun v _ hreg hv0 hl1 hl2 => ?_⟩
    simp only [stepOp, next8, readReg] at h
    split at h
    · exact absurd h (by simp)
    rename_i r s1 heq
    split at heq
    case isFalse => exact absurd heq (by simp)
    injection heq with heq1
    injection heq1 with hr hs1
    subst hr
    subst hs1
    dsimp only at h
    rw [hreg] at h
    dsimp only at h
    have e1 : i32OfNat heap.length = (heap.length : Int) := by
      unfold i32OfNat
      rw [Nat.mod_eq_of_lt (by omega)]
      rw [if_pos hl1]
    rw [e1] at h
    have hfit : fitsI32 ((heap.length : Int) + v) = true := by
      unfold fitsI32
      simp only [Bool.and_eq_true, decide_eq_true_eq]
      constructor <;> omega
    rw [if_pos hfit] at h
    injection h with h
    injection h with hs hc
    subst hs
    dsimp only
    rw [heapResize_length]
    unfold toUsize
    rw [Int.emod_eq_of_lt (by omega) (by omega),
      Int.toNat_add (Int.natCast_nonneg _) hv0, Int.toNat_natCast]
  | HLT =>
    refine ⟨fun _ => ?_, fun v hopx _ _ _ _ => absurd hopx (by decide)⟩
    simp only [stepOp] at h
    injection h with h1
    injection h1 with hs hb
    subst hs
    rfl
  | LOAD =>
    refine ⟨fun _ => ?_, fun v hopx _ _ _ _ => absurd hopx (by decide)⟩
    simp only [stepOp] at h
    split at h
    · exact absurd h (by simp)
    rename_i r s1 heq1
    obtain rfl := next8_some heq1
    split at h
    · exact absurd h (by simp)
    rename_i n s2 heq2
    obtain rfl := next16_some heq2
    split at h
    · exact absurd h (by simp)
    rename_i s3 heq3
    obtain rfl := writeReg_some heq3
    injection h with h1
    injection h1 with hs hb
    subst hs
    rfl
  | ADD =>
    refine ⟨fun _ => ?_, fun v hopx _ _ _ _ => absurd hopx (by decide)⟩
    simp only [stepOp] at h
    exact arith3_heap h
  | SUB =>
    refine ⟨fun _ => ?_, fun v hopx _ _ _ _ => absurd hopx (by decide)⟩
    simp only [stepOp] at h
    exact arith3_heap h
  | MUL =>
    refine ⟨fun _ => ?_, fun v hopx _ _ _ _ => absurd hopx (by decide)⟩
    simp only [stepOp] at h
    exact arith3_heap h
  | DIV =>
    refine ⟨fun _ => ?_, fun v hopx _ _ _ _ => absurd hopx (by decide)⟩
    simp only [stepOp] at h
    split at h
    · exact absurd h (by simp)
    rename_i r0 s1 heq1
    obtain rfl := next8_some heq1
    split at h
    · exact absurd h (by simp)
    rename_i r1 s2 heq2
    obtain rfl := next8_some heq2
    split at h
    · exact absurd h (by simp)
    rename_i r2 s3 heq3
    obtain rfl := next8_some heq3
    split at h
    · exact absurd h (by simp)
    rename_i a heq4
    split at h
    · exact absurd h (by simp)
    rename_i b heq5
    split at h
    · exact absurd h (by simp)
    split at h
    · split at h
      · exact absurd h (by simp)
      rename_i s4 heq6
      obtain rfl := writeReg_some heq6
      split at h
      · exact absurd h (by simp)
      rename_i a2 heq7
      split at h
      · exact absurd h (by simp)
      rename_i b2 heq8
      split at h
      · exact absurd h (by simp)
      split at h
      · exact absurd h (by simp)
      injection h with h1
      injection h1 with hs hb
      subst hs
      rfl
    · exact absurd h (by simp)
  | JMP =>
    refine ⟨fun _ => ?_, fun v hopx _ _ _ _ => absurd hopx (by decide)⟩
    simp only [stepOp] at h
    split at h
    · exact absurd h (by simp)
    rename_i r s1 heq1
    obtain rfl := next8_some heq1
    split at h
    · exact absurd h (by simp)
    rename_i t heq2
    injection h with h1
    injection h1 with hs hb
    subst hs
    rfl
  | JMPF =>
    refine ⟨fun _ => ?_, fun v hopx _ _ _ _ => absurd hopx (by decide)⟩
    simp only [stepOp] at h
    split at h
    · exact absurd h (by simp)
    rename_i r s1 heq1
    obtain rfl := next8_some heq1
    split at h
    · exact absurd h (by simp)
    rename_i t heq2
    split at h
    · injection h with h1
      injection h1 with hs hb
      subst hs
      rfl
    · exact absurd h (by simp)
  | JMPB =>
    refine ⟨fun _ => ?_, fun v hopx _ _ _ _ => absurd hopx (by decide)⟩
    simp only [stepOp] at h
    split at h
    · exact absurd h (by simp)
    rename_i r s1 heq1
    obtain rfl := next8_some heq1
    split at h
    · exact absurd h (by simp)
    rename_i t heq2
    split at h
    · injection h with h1
      injection h1 with hs hb
      subst hs
      rfl
    · exact absurd h (by simp)
  | EQ =>
    refine ⟨fun _ => ?_, fun v hopx _ _ _ _ => absurd hopx (by decide)⟩
    simp only [stepOp] at h
    exact cmpFlag_heap h
  | NEQ =>
    refine ⟨fun _ => ?_, fun v hopx _ _ _ _ => absurd hopx (by decide)⟩
    simp only [stepOp] at h
    exact cmpFlag_heap h
  | GT =>
    refine ⟨fun _ => ?_, fun v hopx _ _ _ _ => absurd hopx (by decide)⟩
    simp only [stepOp] at h
    exact cmpFlag_heap h
  | LT =>
    refine ⟨fun _ => ?_, fun v hopx _ _ _ _ => absurd hopx (by decide)⟩
    simp only [stepOp] at h
    exact cmpFlag_heap h
  | GTE =>
    refine ⟨fun _ => ?_, fun v hopx _ _ _ _ => absurd hopx (by decide)⟩
    simp only [stepOp] at h
    exact cmpFlag_heap h
  | LTE =>
    refine ⟨fun _ => ?_, fun v hopx _ _ _ _ => absurd hopx (by decide)⟩
    simp only [stepOp] at h
    exact cmpFlag_heap h
  | JEQ =>
    refine ⟨fun _ => ?_, fun v hopx _ _ _ _ => absurd hopx (by decide)⟩
    simp only [stepOp] at h
    split at h
    · exact absurd h (by simp)
    rename_i r s1 heq1
    obtain rfl := next8_some heq1
    split at h
    · exact absurd h (by simp)
    rename_i t heq2
    split at h
    · injection h with h1
      injection h1 with hs hb
      subst hs
      rfl
    · injection h with h1
      injection h1 with hs hb
      subst hs
      rfl
  | INC =>
    refine ⟨fun _ => ?_, fun v hopx _ _ _ _ => absurd hopx (by decide)⟩
    simp only [stepOp] at h
    split at h
    · exact absurd h (by simp)
    rename_i r s1 heq1
    obtain rfl := next8_some heq1
    split at h
    · exact absurd h (by simp)
    rename_i x0 heq2
    split at h
    · split at h
      · exact absurd h (by simp)
      rename_i s2 heq3
      obtain rfl := writeReg_some heq3
      injection h with h1
      injection h1 with hs hb
      subst hs
      rfl
    · exact absurd h (by simp)
  | DEC =>
    refine ⟨fun _ => ?_, fun v hopx _ _ _ _ => absurd hopx (by decide)⟩
    simp only [stepOp] at h
    split at h
    · exact absurd h (by simp)
    rename_i r s1 heq1
    obtain rfl := next8_some heq1
    split at h
    · exact absurd h (by simp)
    rename_i x0 heq2
    split at h
    · split at h
      · exact absurd h (by simp)
      rename_i s2 heq3
      obtain rfl := writeReg_some heq3
      injection h with h1
      injection h1 with hs hb
      subst hs
      rfl
    · exact absurd h (by simp)
  | JEQD =>
    refine ⟨fun _ => ?_, fun v hopx _ _ _ _ => absurd hopx (by decide)⟩
    simp only [stepOp] at h
    injection h with h1
    injection h1 with hs hb
    subst hs
    rfl
  | NOP =>
    refine ⟨fun _ => ?_, fun v hopx _ _ _ _ => absurd hopx (by decide)⟩
    simp only [stepOp] at h
    injection h with h1
    injection h1 with hs hb
    subst hs
    rfl
  | IGL =>
    refine ⟨fun _ => ?_, fun v hopx _ _ _ _ => absurd hopx (by decide)⟩
    simp only [stepOp] at h
    injection h with h1
    injection h1 with hs hb
    subst hs
    rfl

/-- Claim C9 (counterexample): running `load $1 #8; aloc $1; load $2 #4;
load $3 #0; sub $4 $3 $2; aloc $4; hlt` takes the heap from 8 bytes after
five steps down to 4 bytes after the sixth — the `ALOC` with register
value `-4` shrinks the heap, so its length does decrease. -/
theorem c9_heap_shrinks :
    (stepsN 5 c9VM).map (fun t => t.heap.length) = some 8 ∧
    (stepsN 6 c9VM).map (fun t => t.heap.length) = some 4 ∧ (4 : Nat) < 8 := by
  decide

theorem c9_heap_growth_witness :
    w9Final.heap.length = w9VM.heap.length + (5 : Int).toNat :=
  (c9_heap_growth w9VM w9Final true (by decide)).2 5 (by decide) (by decide)
    (by decide) (by decide) (by decide)
theorem toDecimalAux_lt (fuel : Nat) : ∀ n d : Nat, d ∈ toDecimalAux fuel n → d < 10 := by
  induction fuel with
  | zero =>
    intro n d hd
    simp [toDecimalAux] at hd
  | succ f ih =>
    intro n d hd
    unfold toDecimalAux at hd
    split at hd
    · simp at hd
    · rcases List.mem_cons.mp hd with h1 | h2
      · omega
      · exact ih (n / 10) d h2

theorem valLE_toDecimalAux : ∀ fuel n : Nat, n ≤ fuel → valLE (toDecimalAux fuel n) = n := by
  intro fuel
  induction fuel with
  | zero =>
    intro n h
    simp [toDecimalAux, valLE]
    omega
  | succ f ih =>
    intro n h
    unfold toDecimalAux
    split
    · rename_i h0
      simp [valLE]
      omega
    · rename_i h0
      simp only [valLE]
      have h1 : n / 10 < n := Nat.div_lt_self (by omega) (by omega)
      rw [ih (n / 10) (by omega)]
      omega

theorem valLE_decimalDigits (n : Nat) : valLE (decimalDigits n) = n := by
  unfold decimalDigits
  split
  · rename_i h0
    simp [valLE]
    omega
  · exact valLE_toDecimalAux n n (le_refl n)

theorem decimalDigits_lt (n d : Nat) (hd : d ∈ decimalDigits n) : d < 10 := by
  unfold decimalDigits at hd
  split at hd
  · simp at hd
    omega
  · exact toDecimalAux_lt n n d hd

theorem foldl_digit_codes (L : List Nat) (a : Nat) :
    List.foldl (fun x c => 10 * x + (c - 48)) a ((L.map (fun d => 48 + d)).reverse) =
      a * 10 ^ L.length + valLE L := by
  induction L generalizing a with
  | nil => simp [valLE]
  | cons d L ih =>
    simp only [List.map_cons, List.reverse_cons, List.foldl_append, List.foldl_cons,
      List.foldl_nil]
    rw [ih]
    simp only [valLE, List.length_cons, pow_succ]
    have h48 : 48 + d - 48 = d := by omega
    rw [h48]
    ring

theorem digitsToNat_decimalCodes (n : Nat) : digitsToNat (decimalCodes n) = n := by
  unfold digitsToNat decimalCodes
  rw [foldl_digit_codes]
  rw [valLE_decimalDigits]
  simp

theorem decimalCodes_all_digit (n c : Nat) (hc : c ∈ decimalCodes n) :
    digitCode c = true := by
  unfold decimalCodes at hc
  rw [List.mem_reverse, List.mem_map] at hc
  obtain ⟨d, hd, rfl⟩ := hc
  have := decimalDigits_lt n d hd
  unfold digitCode
  simp only [Bool.and_eq_true, decide_eq_true_eq]
  omega

theorem decimalCodes_ne_nil (n : Nat) : decimalCodes n ≠ [] := by
  unfold decimalCodes decimalDigits
  split
  · simp
  · rename_i h0
    cases n with
    | zero => exact absurd rfl h0
    | succ m =>
      unfold toDecimalAux
      rw [if_neg h0]
      simp

theorem ws_false_of_digit (c : Nat) (h : digitCode c = true) : wsCode c = false := by
  unfold digitCode at h
  unfold wsCode
  simp only [Bool.and_eq_true, decide_eq_true_eq] at h
  simp only [Bool.or_eq_false_iff, beq_eq_false_iff_ne, ne_eq]
  omega

theorem takeWhile_append_all {p : Nat → Bool} (a b : List Nat)
    (h : ∀ c ∈ a, p c = true) :
    (a ++ b).takeWhile p = a ++ b.takeWhile p := by
  induction a with
  | nil => simp
  | cons x xs ih =>
    simp only [List.cons_append, List.takeWhile_cons]
    rw [if_pos (h x (List.mem_cons_self x xs)),
      ih (fun c hc => h c (List.mem_cons_of_mem x hc))]

theorem dropWhile_append_all {p : Nat → Bool} (a b : List Nat)
    (h : ∀ c ∈ a, p c = true) :
    (a ++ b).dropWhile p = b.dropWhile p := by
  induction a with
  | nil => simp
  | cons x xs ih =>
    simp only [List.cons_append, List.dropWhile_cons]
    rw [if_pos (h x (List.mem_cons_self x xs)),
      ih (fun c hc => h c (List.mem_cons_of_mem x hc))]

theorem dropWhile_eq_self_of_takeWhile_nil {p : Nat → Bool} (b : List Nat)
    (h : b.takeWhile p = []) : b.dropWhile p = b := by
  cases b with
  | nil => rfl
  | cons x xs =>
    rw [List.takeWhile_cons] at h
    rw [List.dropWhile_cons]
    by_cases hp : p x = true
    · rw [if_pos hp] at h
      simp at h
    · rw [if_neg hp]

theorem take1While_decimal (n : Nat) (b : List Nat)
    (hb : b.takeWhile digitCode = []) :
    take1While digitCode (decimalCodes n ++ b) = .ok (decimalCodes n) b := by
  unfold take1While
  rw [takeWhile_append_all _ _ (fun c hc => decimalCodes_all_digit n c hc), hb,
    List.append_nil,
    dropWhile_append_all _ _ (fun c hc => decimalCodes_all_digit n c hc),
    dropWhile_eq_self_of_takeWhile_nil b hb]
  rcases hdc : decimalCodes n with _ | ⟨c, cs⟩
  · exact absurd hdc (decimalCodes_ne_nil n)
  · rfl

theorem skipWs_decimal (n : Nat) (x : List Nat) :
    skipWs (decimalCodes n ++ x) = decimalCodes n ++ x := by
  rcases hdc : decimalCodes n with _ | ⟨c, cs⟩
  · exact absurd hdc (decimalCodes_ne_nil n)
  · have hc : digitCode c = true :=
      decimalCodes_all_digit n c (by rw [hdc]; exact List.mem_cons_self c cs)
    have hw := ws_false_of_digit c hc
    unfold skipWs
    rw [List.cons_append, List.dropWhile_cons]
    simp [hw]

theorem label_declaration_load (r v : Nat) :
    label_declaration (loadCodes r v) = .fail := rfl

theorem opcode_token_load (r v : Nat) :
    opcode_token (loadCodes r v) =
      .ok (Token.Op Opcode.LOAD)
        (32 :: 36 :: (decimalCodes r ++ 32 :: 35 :: decimalCodes v)) := rfl

theorem operand_nil_fail : operand [] = .fail := rfl

theorem operand_register_load (r v : Nat) (hr : r < 256) :
    operand (32 :: 36 :: (decimalCodes r ++ 32 :: 35 :: decimalCodes v)) =
      .ok (Token.Register r) (35 :: decimalCodes v) := by
  unfold operand
  rw [show integer_operand
      (32 :: 36 :: (decimalCodes r ++ 32 :: 35 :: decimalCodes v)) = PRes.fail
    from rfl]
  unfold register
  rw [show tagP [36] (skipWs (32 :: 36 :: (decimalCodes r ++ 32 :: 35 :: decimalCodes v))) =
      PRes.ok () (decimalCodes r ++ 32 :: 35 :: decimalCodes v) from rfl]
  dsimp only
  rw [skipWs_decimal]
  rw [take1While_decimal r (32 :: 35 :: decimalCodes v) rfl]
  dsimp only
  rw [digitsToNat_decimalCodes]
  rw [if_pos hr]
  rfl

theorem operand_integer_load (v : Nat) (hv : v < 2147483648) :
    operand (35 :: decimalCodes v) =
      .ok (Token.IntegerOperand (Int.ofNat v)) [] := by
  unfold operand integer_operand
  rw [show tagP [35] (skipWs (35 :: decimalCodes v)) = PRes.ok () (decimalCodes v)
    from rfl]
  dsimp only
  have h1 : skipWs (decimalCodes v) = decimalCodes v := by
    have := skipWs_decimal v []
    simpa using this
  rw [h1]
  have h2 : take1While digitCode (decimalCodes v) = .ok (decimalCodes v) [] := by
    have := take1While_decimal v [] rfl
    simpa using this
  rw [h2]
  dsimp only
  rw [digitsToNat_decimalCodes]
  rw [if_pos hv]
  rfl

theorem instruction_load (r v : Nat) (hr : r < 256) (hv : v < 2147483648) :
    instruction (loadCodes r v) = .ok (loadIns r v) [] := by
  unfold instruction instruction_combined optP
  rw [label_declaration_load]
  dsimp only
  rw [opcode_token_load]
  dsimp only
  rw [operand_register_load r v hr]
  dsimp only
  rw [operand_integer_load v hv]
  dsimp only
  rw [operand_nil_fail]
  rfl

theorem parse_load (r v : Nat) (hr : r < 256) (hv : v < 2147483648) :
    parseProgram (loadCodes r v) = .ok ⟨[loadIns r v]⟩ [] := by
  unfold parseProgram
  rw [instruction_load r v hr hv]
  rfl

theorem assemble_load (r v : Nat) (hr : r < 32) (hv : v < 65536) :
    assembleCodes (loadCodes r v) = .ok (pie_header ++ loadBody r v) := by
  unfold assembleCodes
  rw [parse_load r v (by omega) (by omega)]
  dsimp only
  have hmod : ((Int.ofNat v) % 65536).toNat = v := by
    rw [show (Int.ofNat v) = (v : Int) from rfl]
    omega
  unfold process_second_phase extract_labels
  dsimp only
  unfold secondPhaseGo
  unfold AssemblerInstruction.to_bytes
  dsimp only [loadIns]
  unfold encodeOperand
  dsimp only
  rw [hmod]
  rfl

theorem step_load (r v : Nat) (hr : r < 32) :
    step ⟨List.replicate 32 0, 0, loadBody r v, 0, false, []⟩ =
      some (loadFinal r v, true) := by
  unfold step
  rw [if_neg (by simp [loadBody]), if_pos (by simp)]
  dsimp only
  rw [show (loadBody r v).getD 0 0 = 1 from rfl,
    show Opcode.fromByte 1 = Opcode.LOAD from rfl]
  simp only [stepOp]
  rw [next8_eq _ (by simp [loadBody])]
  dsimp only
  rw [show (loadBody r v).getD 1 0 = r from rfl]
  rw [next16_eq _ (by simp [loadBody])]
  dsimp only
  rw [show (loadBody r v).getD 2 0 = v / 256 from rfl,
    show (loadBody r v).getD 3 0 = v % 256 from rfl]
  have hval : v / 256 * 256 + v % 256 = v := by omega
  rw [hval]
  rw [writeReg_eq _ _ _ (by dsimp only; simpa using hr)]
  rfl

theorem run_load (r v k : Nat) (hr : r < 32) :
    run (k + 2) ⟨List.replicate 32 0, 0, loadBody r v, 0, false, []⟩ =
      .halted (loadFinal r v) := by
  have hstop : step (loadFinal r v) = some (loadFinal r v, false) := by
    unfold step
    rw [if_pos (by simp [loadFinal, loadBody])]
  simp only [run]
  rw [step_load r v hr]
  simp only [run]
  rw [hstop]

/-- Claim C2: for every register index `r < 32` and 16-bit immediate `v`,
assembling the line `load $r #v` (given here as its character codes,
`loadCodes`), stripping the 64-byte header, loading the body into a fresh
VM and running it to termination leaves `registers[r] = v`. -/
theorem c2_load_roundtrip (r v fuel : Nat) (hr : r < 32) (hv : v < 65536)
    (hf : 2 ≤ fuel) :
    assembleCodes (loadCodes r v) = .ok (pie_header ++ loadBody r v) ∧
    run fuel (VM.new.add_bytes ((pie_header ++ loadBody r v).drop 64)) =
      .halted (loadFinal r v) ∧
    (loadFinal r v).registers.get? r = some (Int.ofNat v) := by
  obtain ⟨k, rfl⟩ : ∃ k, fuel = k + 2 := ⟨fuel - 2, by omega⟩
  refine ⟨assemble_load r v hr hv, ?_, ?_⟩
  · rw [show (64 : Nat) = pie_header.length from rfl, List.drop_left]
    rw [show VM.new.add_bytes (loadBody r v) =
      ⟨List.replicate 32 0, 0, loadBody r v, 0, false, []⟩ from rfl]
    exact run_load r v k hr
  · unfold loadFinal
    dsimp only
    exact List.get?_set_eq_of_lt _ (by simpa using hr)

theorem c2_load_roundtrip_witness :
    codes c2WitnessLine = loadCodes 5 300 ∧
    (assembleCodes (loadCodes 5 300) = .ok (pie_header ++ loadBody 5 300) ∧
      run 2 (VM.new.add_bytes ((pie_header ++ loadBody 5 300).drop 64)) =
        .halted (loadFinal 5 300) ∧
      (loadFinal 5 300).registers.get? 5 = some (Int.ofNat 300)) :=
  ⟨by decide, c2_load_roundtrip 5 300 2 (by decide) (by decide) (by decide)⟩
